import Mathlib

/-!
Verification development for the ComfyUI_PromptStyler repository (nodes.py).

The embedding models: text normalisation and phrase splitting, stable
case-insensitive de-duplication, the style template record, the style source
loader with its pack/legacy fallback chain, the signature-keyed catalog cache,
choice-label resolution, and the prompt composer of the conditioning node.

Modelling conventions: Python strings are Lean String values (a structure over
List Char); the whitespace set of str.split and str.strip is the ASCII
whitespace set; str.casefold and str.lower are modelled as per-character
lowercasing (they agree on ASCII); JSON parsing is abstracted to its outcome
(a failure, or a list of raw records); the filesystem is an abstract record of
stat and read outcomes; the module-level cache globals are modelled by explicit
state passing, with a Bool in the result recording whether a rebuild (that is,
file reading and parsing) happened.
-/

/-- ASCII whitespace, the character class used by Python str.split and
str.strip on the data appearing in this repository. -/
def pyIsSpace (c : Char) : Bool :=
  c == ' ' || c == '\t' || c == '\n' || c == '\r' || c == '\x0B' || c == '\x0C'

/-- nodes.py line 14: the two replace calls of _norm_space, which turn every
carriage return and line feed into a space before splitting. -/
def replCRLF (c : Char) : Char :=
  if c == '\r' || c == '\n' then ' ' else c

/-- Python str.split with no separator: split on runs of whitespace and drop
empty parts. The accumulator holds the current word reversed. -/
def splitWsAux : List Char → List Char → List (List Char)
  | [], acc => if acc = [] then [] else [acc.reverse]
  | c :: cs, acc =>
    if pyIsSpace c then
      if acc = [] then splitWsAux cs [] else acc.reverse :: splitWsAux cs []
    else
      splitWsAux cs (c :: acc)

/-- Python str.split with no separator, starting from an empty accumulator. -/
def splitWs (s : List Char) : List (List Char) :=
  splitWsAux s []

/-- Python " ".join on a list of words, at the character-list level. -/
def joinSp : List (List Char) → List Char
  | [] => []
  | [w] => w
  | w :: ws => w ++ ' ' :: joinSp ws

/-- nodes.py line 13: _norm_space at the character-list level, namely
" ".join(s.replace("\r", " ").replace("\n", " ").split()). -/
def normSpaceL (s : List Char) : List Char :=
  joinSp (splitWs (s.map replCRLF))

/-- nodes.py line 13: _norm_space on strings. -/
def _norm_space (s : String) : String :=
  String.mk (normSpaceL s.data)

theorem splitWsAux_nospace_append (w : List Char) :
    ∀ (rest acc : List Char), (∀ c ∈ w, pyIsSpace c = false) →
      splitWsAux (w ++ rest) acc = splitWsAux rest (w.reverse ++ acc) := by
  induction w with
  | nil => intro rest acc _; simp
  | cons c w ih =>
    intro rest acc h
    have hc : pyIsSpace c = false := h c (List.mem_cons_self c w)
    have ht : ∀ d ∈ w, pyIsSpace d = false := fun d hd => h d (List.mem_cons_of_mem c hd)
    have step : splitWsAux ((c :: w) ++ rest) acc = splitWsAux (w ++ rest) (c :: acc) := by
      simp [splitWsAux, hc]
    rw [step, ih rest (c :: acc) ht]
    simp [List.append_assoc]

theorem splitWsAux_words (cs : List Char) :
    ∀ acc, (∀ c ∈ acc, pyIsSpace c = false) →
      ∀ w ∈ splitWsAux cs acc, w ≠ [] ∧ ∀ c ∈ w, pyIsSpace c = false := by
  induction cs with
  | nil =>
    intro acc hacc w hw
    by_cases h : acc = []
    · simp [splitWsAux, h] at hw
    · simp only [splitWsAux, h, if_false, List.mem_singleton] at hw
      subst hw
      refine ⟨by simpa using h, fun c hc => hacc c (List.mem_reverse.mp hc)⟩
  | cons c cs ih =>
    intro acc hacc w hw
    by_cases hsp : pyIsSpace c = true
    · by_cases h : acc = []
      · simp only [splitWsAux, hsp, if_true, h, if_pos] at hw
        exact ih [] (by simp) w hw
      · simp only [splitWsAux, hsp, if_true, h, if_false, List.mem_cons] at hw
        rcases hw with hw | hw
        · subst hw
          refine ⟨by simpa using h, fun d hd => hacc d (List.mem_reverse.mp hd)⟩
        · exact ih [] (by simp) w hw
    · have hsp2 : pyIsSpace c = false := by simpa using hsp
      simp only [splitWsAux, hsp2, Bool.false_eq_true, if_false] at hw
      refine ih (c :: acc) ?_ w hw
      intro d hd
      rcases List.mem_cons.mp hd with hd | hd
      · subst hd; exact hsp2
      · exact hacc d hd

theorem splitWs_words (s : List Char) :
    ∀ w ∈ splitWs s, w ≠ [] ∧ ∀ c ∈ w, pyIsSpace c = false :=
  splitWsAux_words s [] (by simp)

theorem splitWs_joinSp (ws : List (List Char))
    (h : ∀ w ∈ ws, w ≠ [] ∧ ∀ c ∈ w, pyIsSpace c = false) :
    splitWs (joinSp ws) = ws := by
  induction ws with
  | nil => simp [joinSp, splitWs, splitWsAux]
  | cons w ws ih =>
    have hw := h w (List.mem_cons_self w ws)
    cases ws with
    | nil =>
      show splitWsAux (joinSp [w]) [] = [w]
      have hj : joinSp [w] = w := rfl
      rw [hj]
      have h2 := splitWsAux_nospace_append w [] [] hw.2
      rw [List.append_nil] at h2
      rw [h2]
      have hne : w.reverse ≠ [] := by simpa using hw.1
      simp [splitWsAux, hne]
    | cons w2 ws2 =>
      show splitWsAux (joinSp (w :: w2 :: ws2)) [] = w :: w2 :: ws2
      have hj : joinSp (w :: w2 :: ws2) = w ++ ' ' :: joinSp (w2 :: ws2) := rfl
      rw [hj]
      have h2 := splitWsAux_nospace_append w (' ' :: joinSp (w2 :: ws2)) [] hw.2
      rw [List.append_nil] at h2
      rw [h2]
      have hsp : pyIsSpace ' ' = true := rfl
      have hne : w.reverse ≠ [] := by simpa using hw.1
      simp only [splitWsAux, hsp, if_true, hne, if_false, List.reverse_reverse]
      exact congrArg (w :: ·) (ih (fun x hx => h x (List.mem_cons_of_mem w hx)))

theorem list_map_fixed {α : Type} (f : α → α) (l : List α) (h : ∀ a ∈ l, f a = a) :
    l.map f = l := by
  induction l with
  | nil => rfl
  | cons a l ih =>
    rw [List.map_cons, h a (List.mem_cons_self a l),
      ih (fun b hb => h b (List.mem_cons_of_mem a hb))]

theorem mem_joinSp {c : Char} {ws : List (List Char)} (h : c ∈ joinSp ws) :
    c = ' ' ∨ ∃ w ∈ ws, c ∈ w := by
  induction ws with
  | nil => simp [joinSp] at h
  | cons w ws ih =>
    cases ws with
    | nil =>
      have hj : joinSp [w] = w := rfl
      rw [hj] at h
      exact Or.inr ⟨w, by simp, h⟩
    | cons w2 ws2 =>
      have hj : joinSp (w :: w2 :: ws2) = w ++ ' ' :: joinSp (w2 :: ws2) := rfl
      rw [hj] at h
      rcases List.mem_append.mp h with h1 | h1
      · exact Or.inr ⟨w, by simp, h1⟩
      · rcases List.mem_cons.mp h1 with h2 | h2
        · exact Or.inl h2
        · rcases ih h2 with h3 | ⟨w3, hw3, hc3⟩
          · exact Or.inl h3
          · exact Or.inr ⟨w3, List.mem_cons_of_mem w hw3, hc3⟩

theorem replCRLF_eq_self_of_not_space {c : Char} (h : pyIsSpace c = false) :
    replCRLF c = c := by
  simp only [pyIsSpace, Bool.or_eq_false_iff, beq_eq_false_iff_ne, ne_eq] at h
  obtain ⟨⟨⟨⟨⟨h1, h2⟩, h3⟩, h4⟩, h5⟩, h6⟩ := h
  simp [replCRLF, h3, h4]

theorem map_replCRLF_joinSp (ws : List (List Char))
    (h : ∀ w ∈ ws, ∀ c ∈ w, pyIsSpace c = false) :
    (joinSp ws).map replCRLF = joinSp ws := by
  refine list_map_fixed _ _ ?_
  intro c hc
  rcases mem_joinSp hc with h1 | ⟨w, hw, hcw⟩
  · subst h1; rfl
  · exact replCRLF_eq_self_of_not_space (h w hw c hcw)

theorem normSpaceL_idem (s : List Char) : normSpaceL (normSpaceL s) = normSpaceL s := by
  have hw := splitWs_words (s.map replCRLF)
  show joinSp (splitWs ((joinSp (splitWs (s.map replCRLF))).map replCRLF)) = _
  rw [map_replCRLF_joinSp _ (fun w hw2 => (hw w hw2).2), splitWs_joinSp _ hw]
  rfl

/-- Claim C9: _norm_space is idempotent — normalising an already normalised
string returns it unchanged. -/
theorem norm_space_idempotent (s : String) : _norm_space (_norm_space s) = _norm_space s := by
  show String.mk (normSpaceL (normSpaceL s.data)) = String.mk (normSpaceL s.data)
  rw [normSpaceL_idem]

/-- nodes.py line 30: the casefold key used by _dedupe_phrases, modelled as
per-character lowercasing (identical to Python casefold on ASCII). -/
def casefoldS (s : String) : String :=
  String.mk (s.data.map Char.toLower)

/-- nodes.py lines 25-35: the loop of _dedupe_phrases; seen holds the casefold
keys already emitted (the Python set, modelled as a list queried by
membership). -/
def dedupeAux (seen : List String) : List String → List String
  | [] => []
  | p :: ps =>
    if casefoldS p ∈ seen then dedupeAux seen ps
    else p :: dedupeAux (casefoldS p :: seen) ps

/-- nodes.py lines 25-35: _dedupe_phrases, stable case-insensitive
de-duplication keeping first occurrences. -/
def _dedupe_phrases (phrases : List String) : List String :=
  dedupeAux [] phrases

theorem dedupeAux_congr (l : List String) :
    ∀ s1 s2 : List String, (∀ x, x ∈ s1 ↔ x ∈ s2) → dedupeAux s1 l = dedupeAux s2 l := by
  induction l with
  | nil => intro s1 s2 _; rfl
  | cons p ps ih =>
    intro s1 s2 h
    by_cases hm : casefoldS p ∈ s1
    · rw [dedupeAux, dedupeAux, if_pos hm, if_pos ((h _).mp hm)]
      exact ih s1 s2 h
    · have hm2 : casefoldS p ∉ s2 := fun hx => hm ((h _).mpr hx)
      rw [dedupeAux, dedupeAux, if_neg hm, if_neg hm2]
      refine congrArg (p :: ·) (ih _ _ ?_)
      intro x
      simp only [List.mem_cons]
      exact or_congr Iff.rfl (h x)

theorem dedupeAux_cons_seen (l : List String) :
    ∀ (seen : List String) (k : String),
      dedupeAux (k :: seen) l = dedupeAux seen (l.filter (fun q => casefoldS q != k)) := by
  induction l with
  | nil => intro seen k; rfl
  | cons p ps ih =>
    intro seen k
    by_cases hk : casefoldS p = k
    · have hdrop : ¬ ((casefoldS p != k) = true) := by simp [hk]
      have hmem : casefoldS p ∈ k :: seen := by simp [hk]
      rw [List.filter_cons, if_neg hdrop]
      simp only [dedupeAux]
      rw [if_pos hmem]
      exact ih seen k
    · have hkeep : (casefoldS p != k) = true := by simp [hk]
      rw [List.filter_cons, if_pos hkeep]
      by_cases hm : casefoldS p ∈ seen
      · have hm2 : casefoldS p ∈ k :: seen := List.mem_cons_of_mem k hm
        simp only [dedupeAux]
        rw [if_pos hm2, if_pos hm]
        exact ih seen k
      · have hm2 : casefoldS p ∉ k :: seen := by
          intro hx
          rcases List.mem_cons.mp hx with hx | hx
          · exact hk hx
          · exact hm hx
        simp only [dedupeAux]
        rw [if_neg hm2, if_neg hm]
        refine congrArg (p :: ·) ?_
        rw [dedupeAux_congr ps (casefoldS p :: k :: seen) (k :: casefoldS p :: seen)
          (by intro x; simp only [List.mem_cons]; tauto)]
        exact ih (casefoldS p :: seen) k

theorem dedupe_phrases_cons (p : String) (l : List String) :
    _dedupe_phrases (p :: l) =
      p :: _dedupe_phrases (l.filter (fun q => casefoldS q != casefoldS p)) := by
  show dedupeAux [] (p :: l) = _
  simp only [dedupeAux]
  rw [if_neg (List.not_mem_nil (casefoldS p))]
  exact congrArg (p :: ·) (dedupeAux_cons_seen l [] (casefoldS p))

theorem dedupeAux_sublist (l : List String) : ∀ seen, (dedupeAux seen l).Sublist l := by
  induction l with
  | nil => intro seen; simp [dedupeAux]
  | cons p ps ih =>
    intro seen
    simp only [dedupeAux]
    by_cases hm : casefoldS p ∈ seen
    · rw [if_pos hm]
      exact (ih seen).cons p
    · rw [if_neg hm]
      exact (ih _).cons₂ p

/-- Claim C8: _dedupe_phrases keeps exactly the first occurrence of each
phrase under case-folded equality — the result is a sublist of the input, the
head is always kept, every later case-insensitive repeat of it is dropped
entirely and nothing else is removed (the recursion equations determine the
function completely), and the example sequence evaluates as specified. -/
theorem dedupe_first_occurrence_spec :
    (∀ l : List String, (_dedupe_phrases l).Sublist l) ∧
    _dedupe_phrases [] = [] ∧
    (∀ (p : String) (l : List String),
      _dedupe_phrases (p :: l) =
        p :: _dedupe_phrases (l.filter (fun q => casefoldS q != casefoldS p))) ∧
    _dedupe_phrases ["Cat", "cat", "Dog"] = ["Cat", "Dog"] :=
  ⟨fun l => dedupeAux_sublist l [], rfl, dedupe_phrases_cons, by decide⟩

/-- Python str.strip with no argument: drop leading and trailing whitespace. -/
def stripL (l : List Char) : List Char :=
  ((l.dropWhile pyIsSpace).reverse.dropWhile pyIsSpace).reverse

/-- Python str.strip on strings. -/
def stripS (s : String) : String :=
  String.mk (stripL s.data)

/-- Python s.split(", "): split on every non-overlapping occurrence of the
two-character separator, scanning left to right, keeping empty parts. The
separator is fixed to ", " because every call site of _split_phrases in
nodes.py passes sep = ", ". The accumulator holds the current part reversed. -/
def splitCS : List Char → List Char → List (List Char)
  | [], acc => [acc.reverse]
  | ',' :: ' ' :: rest, acc => acc.reverse :: splitCS rest []
  | c :: rest, acc => splitCS rest (c :: acc)

/-- nodes.py lines 17-22: _split_phrases at the character-list level —
normalise, return [] if empty, split on ", ", strip each part, drop empty
parts. -/
def splitPhrasesL (s : List Char) : List (List Char) :=
  let t := normSpaceL s
  if t = [] then []
  else ((splitCS t []).map stripL).filter (fun p => p != [])

/-- nodes.py lines 17-22: _split_phrases on strings (sep fixed to ", "). -/
def _split_phrases (s : String) : List String :=
  (splitPhrasesL s.data).map String.mk

/-- nodes.py lines 38-47: the StyleTemplate record. The Python field names
prefix, suffix, flux_prefix and flux_suffix are rendered as pfx, sfx,
flux_pfx and flux_sfx. -/
structure StyleTemplate where
  id : String
  name : String
  category : String
  pfx : String
  sfx : String
  flux_pfx : String
  flux_sfx : String
  tags : List String
deriving DecidableEq

/-- Python sep.join on strings. -/
def joinWith (sep : String) (parts : List String) : String :=
  String.intercalate sep parts

/-- nodes.py line 196: choice.rsplit("|", 1)[-1] — the substring after the
last "|", or the whole string when no "|" occurs. -/
def afterLastBar (s : String) : String :=
  String.mk ((s.data.reverse.takeWhile (fun c => c != '|')).reverse)

/-- nodes.py lines 192-200: _style_by_choice — empty choices resolve to none,
otherwise a linear scan for the first template whose id equals the trimmed
text after the last "|". -/
def _style_by_choice (styles : List StyleTemplate) (choice : String) :
    Option StyleTemplate :=
  if choice = "" then none
  else styles.find? (fun s => s.id == stripS (afterLastBar choice))

/-- One Python dict insertion d[k] = v on an insertion-ordered association
list: overwrite in place if the key is present, else append. -/
def dictInsert (d : List (String × StyleTemplate)) (k : String) (v : StyleTemplate) :
    List (String × StyleTemplate) :=
  if d.any (fun e => e.1 == k) then d.map (fun e => if e.1 == k then (k, v) else e)
  else d ++ [(k, v)]

/-- nodes.py line 170: the dict comprehension building by_id, where a later
template with the same id overwrites an earlier one. -/
def buildById (styles : List StyleTemplate) : List (String × StyleTemplate) :=
  styles.foldl (fun d s => dictInsert d s.id s) []

/-- Python dict.get(k): the value stored at k, or none. -/
def dictGet (d : List (String × StyleTemplate)) (k : String) : Option StyleTemplate :=
  (d.find? (fun e => e.1 == k)).map (fun e => e.2)

/-- nodes.py lines 258-267: the body of the else-branch of encode that turns a
chosen template, the prompt and the variant selector into the styled prompt:
the flux_2_klein loose-join branch when that variant is selected and a
non-blank flux fragment exists, otherwise the split/concatenate/dedupe/join
default branch with sep = ", ". -/
def composeStyled (chosen : StyleTemplate) (prompt : String)
    (template_variant : String) : String :=
  if template_variant = "flux_2_klein" ∧
      (stripS chosen.flux_pfx ≠ "" ∨ stripS chosen.flux_sfx ≠ "") then
    _norm_space (joinWith " " [prompt, chosen.flux_pfx, chosen.flux_sfx])
  else
    joinWith ", "
      ((_dedupe_phrases
        (_split_phrases chosen.pfx ++ _split_phrases prompt ++
          _split_phrases chosen.sfx)).filter (fun p => p != ""))

/-- The failure modes of PromptStylerConditioning.encode: RuntimeError on a
missing text encoder, ValueError on an unknown override, ValueError when no
style is selected. -/
inductive EncodeError where
  | invalidEncoder : EncodeError
  | unknownOverride : String → EncodeError
  | noStyleSelected : EncodeError
deriving DecidableEq

/-- nodes.py lines 229-271: PromptStylerConditioning.encode up to the styled
prompt. The CLIP handle is modelled by the Bool encoderPresent (text_encoder
is None iff it is false); the library triple obtained from the module cache is
passed in as styles and by_id; tokenisation and conditioning are outside this
model, so the result is the styled prompt or the raised error. -/
def encode (encoderPresent : Bool) (prompt : String) (apply_style : Bool)
    (style : String) (template_variant : String) (style_id_override : String)
    (styles : List StyleTemplate) (by_id : List (String × StyleTemplate)) :
    Except EncodeError String :=
  if encoderPresent = false then Except.error EncodeError.invalidEncoder
  else if apply_style = false then Except.ok prompt
  else if stripS style_id_override ≠ "" then
    match dictGet by_id (stripS style_id_override) with
    | none => Except.error (EncodeError.unknownOverride (stripS style_id_override))
    | some chosen => Except.ok (composeStyled chosen prompt template_variant)
  else
    match _style_by_choice styles style with
    | none => Except.error EncodeError.noStyleSelected
    | some chosen => Except.ok (composeStyled chosen prompt template_variant)

theorem split_phrases_ne_empty (s : String) : ∀ p ∈ _split_phrases s, p ≠ "" := by
  intro p hp
  unfold _split_phrases at hp
  rcases List.mem_map.mp hp with ⟨l, hl, hlp⟩
  subst hlp
  unfold splitPhrasesL at hl
  by_cases h : normSpaceL s.data = []
  · simp [h] at hl
  · simp only [h, if_false] at hl
    have hne := (List.mem_filter.mp hl).2
    intro hcon
    have hdata : l = [] := congrArg String.data hcon
    simp [hdata] at hne

/-- A sample template for the default-variant composition scenario in the
spec: the Cinematic prefix and a suffix repeating one of its phrases. -/
def exTmpl : StyleTemplate :=
  ⟨"ex", "Example", "Cinema", "cinematic film still, dramatic lighting",
    "film grain, dramatic lighting", "", "", []⟩

/-- Claim C1: under apply_style with the default variant (or the alternate
variant when both alternate fragments are blank) the styled prompt is the
", "-join of the case-insensitive de-duplication of the concatenated phrase
splits of the template pfx, the prompt and the template sfx, in that order;
and the concrete scenario from the spec evaluates to the expected string. -/
theorem default_composition_spec :
    (∀ (tmpl : StyleTemplate) (prompt template_variant : String),
      template_variant = "default" ∨
        (stripS tmpl.flux_pfx = "" ∧ stripS tmpl.flux_sfx = "") →
      composeStyled tmpl prompt template_variant =
        joinWith ", "
          (_dedupe_phrases
            (_split_phrases tmpl.pfx ++ _split_phrases prompt ++
              _split_phrases tmpl.sfx))) ∧
    composeStyled exTmpl "a cat, sitting" "default" =
      "cinematic film still, dramatic lighting, a cat, sitting, film grain" := by
  constructor
  · intro tmpl prompt template_variant h
    have hbranch : ¬ (template_variant = "flux_2_klein" ∧
        (stripS tmpl.flux_pfx ≠ "" ∨ stripS tmpl.flux_sfx ≠ "")) := by
      rcases h with h | h
      · rintro ⟨h1, -⟩
        rw [h] at h1
        exact absurd h1 (by decide)
      · rintro ⟨-, h2 | h2⟩
        · exact h2 h.1
        · exact h2 h.2
    unfold composeStyled
    rw [if_neg hbranch]
    refine congrArg (joinWith ", ") ?_
    refine List.filter_eq_self.mpr ?_
    intro p hp
    have hmem : p ∈ _split_phrases tmpl.pfx ++ _split_phrases prompt ++
        _split_phrases tmpl.sfx := (dedupeAux_sublist _ []).subset hp
    have hne : p ≠ "" := by
      rcases List.mem_append.mp hmem with h1 | h1
      · rcases List.mem_append.mp h1 with h2 | h2
        · exact split_phrases_ne_empty _ p h2
        · exact split_phrases_ne_empty _ p h2
      · exact split_phrases_ne_empty _ p h1
    simpa using hne
  · decide

/-- Witness for claim C1: the default-variant hypothesis discharged at the
concrete scenario from the spec. -/
theorem default_composition_spec_witness :
    composeStyled exTmpl "a cat, sitting" "default" =
      joinWith ", "
        (_dedupe_phrases
          (_split_phrases exTmpl.pfx ++ _split_phrases "a cat, sitting" ++
            _split_phrases exTmpl.sfx)) :=
  default_composition_spec.1 exTmpl "a cat, sitting" "default" (Or.inl rfl)

/-- Claim C2: with apply_style false, encode returns the prompt unchanged for
every selection, variant and override, resolving no template and raising no
selection error. -/
theorem apply_style_false_passthrough (prompt style template_variant : String)
    (style_id_override : String) (styles : List StyleTemplate)
    (by_id : List (String × StyleTemplate)) :
    encode true prompt false style template_variant style_id_override styles by_id =
      Except.ok prompt := rfl

/-- Claim C3: a non-blank override that is not a key of the id index makes
encode fail with the unknown-override error even when the choice label is
valid, and whenever the trimmed override is non-blank the outcome never
depends on the choice label. -/
theorem override_unknown_fails (prompt style template_variant : String)
    (style_id_override : String) (styles : List StyleTemplate)
    (by_id : List (String × StyleTemplate))
    (h : stripS style_id_override ≠ "") :
    (dictGet by_id (stripS style_id_override) = none →
      encode true prompt true style template_variant style_id_override styles by_id =
        Except.error (EncodeError.unknownOverride (stripS style_id_override))) ∧
    (∀ style2 : String,
      encode true prompt true style template_variant style_id_override styles by_id =
        encode true prompt true style2 template_variant style_id_override styles by_id) := by
  have key : ∀ st : String,
      encode true prompt true st template_variant style_id_override styles by_id =
        match dictGet by_id (stripS style_id_override) with
        | none => Except.error (EncodeError.unknownOverride (stripS style_id_override))
        | some chosen => Except.ok (composeStyled chosen prompt template_variant) := by
    intro st
    show (if stripS style_id_override ≠ "" then _ else _) = _
    rw [if_pos h]
  refine ⟨fun hnone => ?_, fun style2 => ?_⟩
  · rw [key style, hnone]
  · rw [key style, key style2]

/-- A sample valid template whose choice label would resolve. -/
def wTmpl : StyleTemplate :=
  ⟨"cin_film_noir", "Film Noir", "Cinema", "", "", "", "", []⟩

/-- Witness for claim C3: with a resolvable choice label supplied, an unknown
override string still raises the unknown-override error. -/
theorem override_unknown_fails_witness :
    encode true "a cat" true "Cinema | Film Noir | cin_film_noir" "default" "zzz"
        [wTmpl] (buildById [wTmpl]) =
      Except.error (EncodeError.unknownOverride (stripS "zzz")) := by
  have h := override_unknown_fails "a cat" "Cinema | Film Noir | cin_film_noir"
    "default" "zzz" [wTmpl] (buildById [wTmpl]) (by decide)
  exact h.1 (by decide)

/-- A sample template for the alternate-variant composition scenario of the
spec: blank flux prefix, a sentence-style flux suffix. -/
def fluxTmpl : StyleTemplate :=
  ⟨"fn", "Film Noir Flux", "Cinema", "", "", "",
    "Style: film noir. Lighting: dramatic side lighting.", []⟩

/-- Claim C6: when the alternate variant is selected and the template has a
non-blank alternate fragment, the styled prompt is the whitespace-normalised
space-join of prompt, variant prefix and variant suffix, with no phrase
splitting or de-duplication; and the concrete scenario from the spec evaluates
as specified. -/
theorem flux_variant_compose_spec :
    (∀ (tmpl : StyleTemplate) (prompt : String),
      stripS tmpl.flux_pfx ≠ "" ∨ stripS tmpl.flux_sfx ≠ "" →
      composeStyled tmpl prompt "flux_2_klein" =
        _norm_space (joinWith " " [prompt, tmpl.flux_pfx, tmpl.flux_sfx])) ∧
    composeStyled fluxTmpl "a cat" "flux_2_klein" =
      "a cat Style: film noir. Lighting: dramatic side lighting." := by
  constructor
  · intro tmpl prompt h
    unfold composeStyled
    rw [if_pos ⟨rfl, h⟩]
  · decide

/-- Witness for claim C6: the non-blank-fragment hypothesis discharged at the
concrete scenario from the spec. -/
theorem flux_variant_compose_spec_witness :
    composeStyled fluxTmpl "a cat" "flux_2_klein" =
      _norm_space (joinWith " " ["a cat", fluxTmpl.flux_pfx, fluxTmpl.flux_sfx]) :=
  flux_variant_compose_spec.1 fluxTmpl "a cat" (Or.inr (by decide))

/-- A template whose id is the empty string, as the loader can produce from a
raw record with an empty id value. -/
def emptyIdT : StyleTemplate := ⟨"", "Nameless", "Cinema", "", "", "", "", []⟩

/-- Counterexample to claim C7 as stated: for the empty label, the trimmed
substring after the last delimiter is the empty string and the sequence holds
a template whose id equals it exactly, yet _style_by_choice returns none
because of its empty-choice guard — so resolution does not always return a
template whose id matches the extracted substring when one exists. -/
theorem choice_label_empty_counterexample :
    _style_by_choice [emptyIdT] "" = none ∧
    [emptyIdT].find? (fun s => s.id == stripS (afterLastBar "")) = some emptyIdT := by
  decide

/-- A template whose name and category contain the delimiter. -/
def noirT : StyleTemplate :=
  ⟨"cin_film_noir", "Film | Noir", "Cine|ma", "", "", "", "", []⟩

/-- A decoy template placed in front of noirT. -/
def decoyT : StyleTemplate := ⟨"other", "Other", "Cinema", "", "", "", "", []⟩

/-- Claim C7 (amended): for every NON-EMPTY label, resolution takes exactly
the trimmed substring after the last "|" in the label and returns the first
template of the sequence whose id equals it, or none when no id matches; the
empty label always resolves to none; and the label from the spec scenario
resolves to the template with id cin_film_noir even with delimiters embedded
in its category and name fields. -/
theorem choice_label_resolution_spec :
    (∀ (styles : List StyleTemplate) (choice : String), choice ≠ "" →
      _style_by_choice styles choice =
        styles.find? (fun s => s.id == stripS (afterLastBar choice))) ∧
    (∀ styles : List StyleTemplate, _style_by_choice styles "" = none) ∧
    _style_by_choice [decoyT, noirT] "Cinema | Film Noir | cin_film_noir" =
      some noirT := by
  refine ⟨?_, ?_, by decide⟩
  · intro styles choice h
    unfold _style_by_choice
    rw [if_neg h]
  · intro styles
    rfl

/-- Witness for claim C7: the non-empty-label hypothesis discharged at the
concrete label from the spec scenario. -/
theorem choice_label_resolution_spec_witness :
    _style_by_choice [decoyT, noirT] "Cinema | Film Noir | cin_film_noir" =
      [decoyT, noirT].find?
        (fun s => s.id == stripS (afterLastBar "Cinema | Film Noir | cin_film_noir")) :=
  choice_label_resolution_spec.1 [decoyT, noirT]
    "Cinema | Film Noir | cin_film_noir" (by decide)

/-- The key column of an association list modelling a dict. -/
def keysOf (d : List (String × StyleTemplate)) : List String :=
  d.map (fun e => e.1)

theorem dictInsert_cons_ne (e0 : String × StyleTemplate)
    (d : List (String × StyleTemplate)) (k : String) (v : StyleTemplate)
    (h : e0.1 ≠ k) : dictInsert (e0 :: d) k v = e0 :: dictInsert d k v := by
  unfold dictInsert
  have hb : (e0.1 == k) = false := by simp [h]
  by_cases ha : d.any (fun e => e.1 == k)
  · have hall : ((e0 :: d).any (fun e => e.1 == k)) = true := by
      simp [List.any_cons, ha]
    rw [if_pos hall, if_pos ha, List.map_cons, hb]
    simp
  · have hna : ¬ (d.any (fun e => e.1 == k) = true) := ha
    have hall : ¬ (((e0 :: d).any (fun e => e.1 == k)) = true) := by
      simp [List.any_cons, hb]
      simpa using hna
    rw [if_neg hall, if_neg hna, List.cons_append]

theorem dictInsert_cons_eq (k : String) (v0 v : StyleTemplate)
    (d : List (String × StyleTemplate)) (h : k ∉ keysOf d) :
    dictInsert ((k, v0) :: d) k v = (k, v) :: d := by
  unfold dictInsert
  have hall : (((k, v0) :: d).any (fun e => e.1 == k)) = true := by
    simp [List.any_cons]
  rw [if_pos hall, List.map_cons]
  have h0 : (if ((k, v0) : String × StyleTemplate).1 == k then (k, v) else (k, v0)) = (k, v) := by
    simp
  rw [h0]
  refine congrArg ((k, v) :: ·) ?_
  refine list_map_fixed _ _ ?_
  intro e he
  have : e.1 ≠ k := by
    intro hx
    exact h (by simpa [keysOf, hx] using List.mem_map_of_mem (fun e => e.1) he)
  simp [this]

theorem dictGet_insert (d : List (String × StyleTemplate)) :
    ∀ (k : String) (v : StyleTemplate) (k' : String), (keysOf d).Nodup →
      dictGet (dictInsert d k v) k' = if k' = k then some v else dictGet d k' := by
  induction d with
  | nil =>
    intro k v k' _
    unfold dictInsert dictGet
    by_cases h : k' = k
    · simp [h]
    · have hb : (k == k') = false := by
        simp only [beq_eq_false_iff_ne, ne_eq]
        exact fun hx => h hx.symm
      simp [List.find?, h, hb]
  | cons e0 d ih =>
    intro k v k' hnd
    obtain ⟨k0, v0⟩ := e0
    have htl : (keysOf d).Nodup := (List.nodup_cons.mp hnd).2
    by_cases hk : k0 = k
    · subst hk
      have hfresh : k0 ∉ keysOf d := (List.nodup_cons.mp hnd).1
      rw [dictInsert_cons_eq k0 v0 v d hfresh]
      by_cases h' : k' = k0
      · subst h'
        unfold dictGet
        simp [List.find?]
      · unfold dictGet
        have hb : (k0 == k') = false := by
          simp
          intro hx
          exact h' hx.symm
        simp only [List.find?, hb]
        rw [if_neg h']
    · rw [dictInsert_cons_ne (k0, v0) d k v hk]
      unfold dictGet
      by_cases h0 : k0 = k'
      · have hne : ¬ (k' = k) := fun hx => hk (h0.trans hx)
        rw [if_neg hne]
        rw [List.find?_cons_of_pos _ (by simp [h0]), List.find?_cons_of_pos _ (by simp [h0])]
      · rw [List.find?_cons_of_neg _ (by simp [h0]),
          List.find?_cons_of_neg _ (by simp [h0])]
        have hl := ih k v k' htl
        unfold dictGet at hl
        exact hl

theorem keysOf_insert_nodup (d : List (String × StyleTemplate)) (k : String)
    (v : StyleTemplate) (h : (keysOf d).Nodup) :
    (keysOf (dictInsert d k v)).Nodup := by
  unfold dictInsert
  by_cases ha : d.any (fun e => e.1 == k) = true
  · rw [if_pos ha]
    have hkeys : keysOf (d.map (fun e => if e.1 == k then (k, v) else e)) = keysOf d := by
      unfold keysOf
      rw [List.map_map]
      refine List.map_congr_left ?_
      intro e _
      by_cases hb : e.1 = k
      · simp [Function.comp, hb]
      · simp [Function.comp, hb]
    rw [hkeys]
    exact h
  · rw [if_neg ha]
    have hfresh : k ∉ keysOf d := by
      intro hx
      rcases List.mem_map.mp hx with ⟨e, he, hek⟩
      exact ha (List.any_eq_true.mpr ⟨e, he, by simp [hek]⟩)
    have hkeys : keysOf (d ++ [(k, v)]) = keysOf d ++ [k] := by
      unfold keysOf
      rw [List.map_append]
      rfl
    rw [hkeys]
    simp [List.nodup_append, h, hfresh]

theorem buildById_keys_nodup (styles : List StyleTemplate) :
    (keysOf (buildById styles)).Nodup := by
  suffices hgen : ∀ d, (keysOf d).Nodup →
      (keysOf (styles.foldl (fun d s => dictInsert d s.id s) d)).Nodup by
    exact hgen [] (by simp [keysOf])
  induction styles with
  | nil => intro d hd; exact hd
  | cons s styles ih =>
    intro d hd
    exact ih _ (keysOf_insert_nodup d s.id s hd)

theorem buildById_append_singleton (l : List StyleTemplate) (s : StyleTemplate) :
    buildById (l ++ [s]) = dictInsert (buildById l) s.id s := by
  unfold buildById
  rw [List.foldl_append]
  rfl

theorem dictGet_buildById (styles : List StyleTemplate) (sid : String) :
    dictGet (buildById styles) sid =
      (styles.filter (fun s => s.id == sid)).getLast? := by
  induction styles using List.reverseRecOn with
  | nil => rfl
  | append_singleton l s ih =>
    rw [buildById_append_singleton,
      dictGet_insert (buildById l) s.id s sid (buildById_keys_nodup l),
      List.filter_append]
    by_cases h : sid = s.id
    · rw [if_pos h]
      have hone : (([s] : List StyleTemplate).filter (fun t => t.id == sid)) = [s] := by
        simp [List.filter_cons, h]
      rw [hone, List.getLast?_concat]
    · rw [if_neg h]
      have hnone : (([s] : List StyleTemplate).filter (fun t => t.id == sid)) = [] := by
        simp [List.filter_cons]
        exact fun hx => h hx.symm
      rw [hnone, List.append_nil, ih]

theorem find_eq_filter_head {α : Type} (p : α → Bool) (l : List α) :
    l.find? p = (l.filter p).head? := by
  induction l with
  | nil => rfl
  | cons a l ih =>
    by_cases h : p a = true
    · rw [List.find?_cons_of_pos _ h, List.filter_cons, if_pos h, List.head?_cons]
    · rw [List.find?_cons_of_neg _ h, List.filter_cons, if_neg h, ih]

/-- First of two templates sharing the id dup. -/
def dupT1 : StyleTemplate := ⟨"dup", "First", "Cinema", "p1", "", "", "", []⟩

/-- Second of two templates sharing the id dup. -/
def dupT2 : StyleTemplate := ⟨"dup", "Second", "Cinema", "p2", "", "", "", []⟩

/-- Claim C10: with duplicate ids in the loaded template list the two public
resolution paths disagree — the id-to-template index built by the dict
comprehension resolves an id to the LAST template carrying it (last-wins
overwrite), while choice-label resolution scans the template sequence linearly
and returns the FIRST; on a concrete two-template library the same id
resolves to two different templates. -/
theorem duplicate_id_resolution_divergence :
    (∀ (styles : List StyleTemplate) (sid : String),
      dictGet (buildById styles) sid =
        (styles.filter (fun s => s.id == sid)).getLast?) ∧
    (∀ (styles : List StyleTemplate) (choice : String), choice ≠ "" →
      _style_by_choice styles choice =
        (styles.filter (fun s => s.id == stripS (afterLastBar choice))).head?) ∧
    (_style_by_choice [dupT1, dupT2] "Cinema | First | dup" = some dupT1 ∧
     dictGet (buildById [dupT1, dupT2]) "dup" = some dupT2 ∧ dupT1 ≠ dupT2) := by
  refine ⟨dictGet_buildById, ?_, by decide, by decide, by decide⟩
  intro styles choice h
  unfold _style_by_choice
  rw [if_neg h, find_eq_filter_head]

/-- Witness for claim C10: the non-empty-choice hypothesis discharged at the
concrete duplicate-id library. -/
theorem duplicate_id_resolution_divergence_witness :
    _style_by_choice [dupT1, dupT2] "Cinema | First | dup" =
      ([dupT1, dupT2].filter
        (fun s => s.id == stripS (afterLastBar "Cinema | First | dup"))).head? :=
  duplicate_id_resolution_divergence.2.1 [dupT1, dupT2] "Cinema | First | dup"
    (by decide)

/-- One raw style record as produced by _load_styles_file after its shape
coercions: id and name are none when the key is missing (record skipped by
the catalog builder), category is none when the key is missing (default
"Uncategorized" applied); the four fragment fields hold the net result of
default.get / models.get("flux_2_klein").get with non-dict sub-objects
already coerced to empty strings, as nodes.py lines 147-165 do. -/
structure RawStyle where
  id : Option String
  name : Option String
  category : Option String
  pfx : String
  sfx : String
  flux_pfx : String
  flux_sfx : String
  tags : List String
deriving DecidableEq

/-- The filesystem as the loader observes it: whether the packs directory is
a directory, its listing, and per-path stat and read outcomes. A stat of none
models an OSError; a read of none models an open/parse exception raised by
_load_styles_file, and a read of some gives the record list that call
returns. -/
structure FileSys where
  packsDirIsDir : Bool
  packsDirListing : List String
  stat : String → Option (Int × Int)
  read : String → Option (List RawStyle)

/-- nodes.py line 9: the legacy monolithic styles file (path relative to the
module directory). -/
def _STYLES_PATH : String := "styles/styles_v1.json"

/-- nodes.py line 10: the style packs directory. -/
def _STYLE_PACKS_DIR : String := "styles/packs"

/-- Python code-point comparison of strings, at the character-list level. -/
def strLt : List Char → List Char → Bool
  | [], [] => false
  | [], _ :: _ => true
  | _ :: _, [] => false
  | a :: as, b :: bs => if a < b then true else if b < a then false else strLt as bs

/-- Stable insertion into a sorted list: x goes before the first element y
with le x y. -/
def insertLe {α : Type} (le : α → α → Bool) (x : α) : List α → List α
  | [] => [x]
  | y :: ys => if le x y then x :: y :: ys else y :: insertLe le x ys

/-- Stable insertion sort; extensionally equal to Python sorted for a total
preorder le, since stable sorting determines the output uniquely. -/
def sortLe {α : Type} (le : α → α → Bool) : List α → List α
  | [] => []
  | x :: xs => insertLe le x (sortLe le xs)

/-- Python name.lower().endswith(".json") at the character-list level. -/
def lowerEndsWithJson (nm : String) : Bool :=
  List.isSuffixOf (".json".data) (nm.data.map Char.toLower)

/-- nodes.py lines 64-71: _iter_pack_paths — empty when the packs directory
is missing, else the sorted .json entries of the listing joined onto the
packs directory. -/
def _iter_pack_paths (fs : FileSys) : List String :=
  if fs.packsDirIsDir then
    ((sortLe (fun a b => !(strLt b.data a.data)) fs.packsDirListing).filter
      lowerEndsWithJson).map (fun nm => _STYLE_PACKS_DIR ++ "/" ++ nm)
  else []

/-- nodes.py lines 56-61: _file_sig — (path, mtime, size) from os.stat, or
the sentinel (path, -1, -1) on OSError. The float mtime is modelled as Int. -/
def _file_sig (fs : FileSys) (path : String) : String × Int × Int :=
  match fs.stat path with
  | some st => (path, st.1, st.2)
  | none => (path, -1, -1)

/-- nodes.py lines 74-79: _style_sources_sig — the per-file signature tuple
over all packs plus the legacy file, or the legacy file alone when no packs
exist. -/
def _style_sources_sig (fs : FileSys) (path : String) : List (String × Int × Int) :=
  let packs := _iter_pack_paths fs
  (if packs ≠ [] then packs ++ [path] else [path]).map (_file_sig fs)

/-- nodes.py lines 105-114: one iteration of the pack loop of
_load_style_sources — a failing pack appends a warning, a readable pack
appends its records (an empty pack contributes nothing either way). -/
def loadPackStep (fs : FileSys) (acc : List RawStyle × List String) (p : String) :
    List RawStyle × List String :=
  match fs.read p with
  | none => (acc.1, acc.2 ++ ["WARN: unable to read style pack: " ++ p])
  | some part => (acc.1 ++ part, acc.2)

/-- nodes.py lines 93-129: _load_style_sources, returning the merged records
together with the log lines printed. No packs: read the legacy file, with
errors caught and turned into an empty result. Packs present: fold the pack
loop, and if the merge is empty fall back to the legacy file (warning when it
has records, error when unreadable, silent fall-through to the empty merge
when it is empty). -/
def _load_style_sources (fs : FileSys) (path : String) :
    List RawStyle × List String :=
  let packs := _iter_pack_paths fs
  if packs = [] then
    match fs.read path with
    | some rs => (rs, [])
    | none => ([], ["ERROR: unable to read styles file: " ++ path])
  else
    let folded := packs.foldl (loadPackStep fs) ([], [])
    if folded.1 = [] then
      match fs.read path with
      | none =>
        ([], folded.2 ++
          ["ERROR: no usable style packs found and unable to read legacy file: " ++ path])
      | some legacy =>
        if legacy ≠ [] then
          (legacy, folded.2 ++
            ["WARN: no styles loaded from packs; falling back to legacy file: " ++ path])
        else (folded.1, folded.2)
    else (folded.1, folded.2)

/-- nodes.py lines 141-168: one raw record mapped to a StyleTemplate, or none
(skipped) when id or name is missing. -/
def templateOfRaw (r : RawStyle) : Option StyleTemplate :=
  match r.id, r.name with
  | some sid, some nm =>
    some ⟨sid, nm, r.category.getD "Uncategorized", r.pfx, r.sfx,
      r.flux_pfx, r.flux_sfx, r.tags⟩
  | _, _ => none

/-- nodes.py line 188: the sort key comparison of _choices_for_styles —
lexicographic on (category.casefold(), name.casefold(), id). -/
def styleSortKeyLe (a b : StyleTemplate) : Bool :=
  if (casefoldS a.category).data ≠ (casefoldS b.category).data then
    strLt (casefoldS a.category).data (casefoldS b.category).data
  else if (casefoldS a.name).data ≠ (casefoldS b.name).data then
    strLt (casefoldS a.name).data (casefoldS b.name).data
  else !(strLt b.id.data a.id.data)

/-- nodes.py lines 185-189: _choices_for_styles — sort, then render each
template as "Category | Name | id". -/
def _choices_for_styles (styles : List StyleTemplate) : List String :=
  (sortLe styleSortKeyLe styles).map
    (fun s => s.category ++ " | " ++ s.name ++ " | " ++ s.id)

/-- nodes.py lines 50-53: the module-level cache globals, as one explicit
state value. -/
structure CacheState where
  sig : Option (List (String × Int × Int))
  styles : List StyleTemplate
  byId : List (String × StyleTemplate)
  choices : List String
deriving DecidableEq

/-- nodes.py lines 50-53: the initial value of the cache globals. -/
def initialCacheState : CacheState := ⟨none, [], [], []⟩

/-- nodes.py lines 139-171: the rebuild path of _get_style_library — load the
sources, map the raw records to templates, build the id index and the choice
labels (with the single sentinel label when no template loaded). -/
def buildTriple (fs : FileSys) (path : String) :
    List StyleTemplate × List (String × StyleTemplate) × List String :=
  let styles := ((_load_style_sources fs path).1).filterMap templateOfRaw
  (styles, buildById styles,
    if styles ≠ [] then _choices_for_styles styles
    else ["(no styles found) | (no styles) | __none__"])

/-- nodes.py lines 132-177: _get_style_library as a state transition — on a
signature match return the cached triple and state untouched, otherwise
rebuild and replace the whole cache. The Bool records whether the rebuild
path (the only path that reads or parses files) ran. -/
def _get_style_library (fs : FileSys) (path : String) (st : CacheState) :
    (List StyleTemplate × List (String × StyleTemplate) × List String) ×
      CacheState × Bool :=
  let sig := _style_sources_sig fs path
  if st.sig = some sig then ((st.styles, st.byId, st.choices), st, false)
  else
    let t := buildTriple fs path
    (t, ⟨some sig, t.1, t.2.1, t.2.2⟩, true)

/-- Claim C4: access returns the cached triple with the state untouched and
no rebuild exactly when the current staleness signature equals the stored
one; any signature difference — any contributing file whose (path, mtime,
size) tuple changed — forces the rebuild path, which replaces signature and
triple together in one new state. -/
theorem catalog_cache_spec (fs : FileSys) (path : String) (st : CacheState) :
    ((_get_style_library fs path st).2.2 = false ↔
      st.sig = some (_style_sources_sig fs path)) ∧
    (st.sig = some (_style_sources_sig fs path) →
      _get_style_library fs path st = ((st.styles, st.byId, st.choices), st, false)) ∧
    (st.sig ≠ some (_style_sources_sig fs path) →
      _get_style_library fs path st =
        (buildTriple fs path,
          ⟨some (_style_sources_sig fs path), (buildTriple fs path).1,
            (buildTriple fs path).2.1, (buildTriple fs path).2.2⟩, true)) := by
  unfold _get_style_library
  by_cases h : st.sig = some (_style_sources_sig fs path)
  · simp [h]
  · simp [h]

/-- A filesystem with no packs directory and a present legacy file. -/
def fsA : FileSys :=
  ⟨false, [], fun p => if p = _STYLES_PATH then some (5, 7) else none,
    fun _ => some []⟩

/-- A cache state whose stored signature matches fsA. -/
def stA : CacheState := ⟨some [(_STYLES_PATH, 5, 7)], [], [], ["cached"]⟩

/-- Witness for claim C4: on a matching signature the access is a cache hit
returning the stored triple with no rebuild. -/
theorem catalog_cache_spec_witness :
    _get_style_library fsA _STYLES_PATH stA =
      ((stA.styles, stA.byId, stA.choices), stA, false) :=
  (catalog_cache_spec fsA _STYLES_PATH stA).2.1 (by decide)

theorem loadPack_foldl (fs : FileSys) (packs : List String) :
    ∀ acc : List RawStyle × List String,
      (packs.foldl (loadPackStep fs) acc).1 =
        acc.1 ++ (packs.map (fun p => (fs.read p).getD [])).flatten ∧
      (packs.foldl (loadPackStep fs) acc).2 =
        acc.2 ++ packs.filterMap
          (fun p => if fs.read p = none
            then some ("WARN: unable to read style pack: " ++ p) else none) := by
  induction packs with
  | nil => intro acc; simp
  | cons p ps ih =>
    intro acc
    rw [List.foldl_cons]
    cases hp : fs.read p with
    | none =>
      have hstep : loadPackStep fs acc p =
          (acc.1, acc.2 ++ ["WARN: unable to read style pack: " ++ p]) := by
        unfold loadPackStep
        rw [hp]
      rw [hstep]
      refine ⟨?_, ?_⟩
      · rw [(ih _).1]
        simp [hp]
      · rw [(ih _).2]
        simp [hp]
    | some part =>
      have hstep : loadPackStep fs acc p = (acc.1 ++ part, acc.2) := by
        unfold loadPackStep
        rw [hp]
      rw [hstep]
      refine ⟨?_, ?_⟩
      · rw [(ih _).1]
        simp [hp]
      · rw [(ih _).2]
        simp [hp]

/-- Claim C5: with packs present and at least one readable pack holding
records, _load_style_sources returns exactly the concatenation of the pack
record lists in pack-path order (failing packs contributing nothing beyond a
warning log line each); and with packs present but an empty merge it returns
whatever the legacy file yields, or nothing when that read fails too — in
the model the loader is a total function, matching the source code catching
every per-file exception on these paths. -/
theorem load_sources_pack_skip_spec :
    (∀ fs : FileSys,
      _iter_pack_paths fs ≠ [] →
      (∃ p ∈ _iter_pack_paths fs, ∃ rs, fs.read p = some rs ∧ rs ≠ []) →
      ((_load_style_sources fs _STYLES_PATH).1 =
        ((_iter_pack_paths fs).map (fun p => (fs.read p).getD [])).flatten ∧
       ∀ q ∈ _iter_pack_paths fs, fs.read q = none →
        ("WARN: unable to read style pack: " ++ q) ∈
          (_load_style_sources fs _STYLES_PATH).2)) ∧
    (∀ fs : FileSys,
      _iter_pack_paths fs ≠ [] →
      ((_iter_pack_paths fs).map (fun p => (fs.read p).getD [])).flatten = [] →
      (_load_style_sources fs _STYLES_PATH).1 = (fs.read _STYLES_PATH).getD []) := by
  constructor
  · intro fs h1 h2
    obtain ⟨p, hp, rs, hrs, hrsne⟩ := h2
    have hfold := loadPack_foldl fs (_iter_pack_paths fs) ([], [])
    have hmerged : ((_iter_pack_paths fs).foldl (loadPackStep fs) ([], [])).1 =
        ((_iter_pack_paths fs).map (fun q => (fs.read q).getD [])).flatten := by
      simpa using hfold.1
    have hflatne :
        ((_iter_pack_paths fs).map (fun q => (fs.read q).getD [])).flatten ≠ [] := by
      obtain ⟨x, hx⟩ := List.exists_mem_of_ne_nil rs hrsne
      refine List.ne_nil_of_mem (a := x) ?_
      refine List.mem_flatten.mpr ⟨rs, ?_, hx⟩
      refine List.mem_map.mpr ⟨p, hp, ?_⟩
      simp [hrs]
    have hne : ((_iter_pack_paths fs).foldl (loadPackStep fs) ([], [])).1 ≠ [] := by
      rw [hmerged]; exact hflatne
    constructor
    · simp only [_load_style_sources]
      rw [if_neg h1, if_neg hne]
      exact hmerged
    · intro q hq hread
      simp only [_load_style_sources]
      rw [if_neg h1, if_neg hne]
      have hlogs : ((_iter_pack_paths fs).foldl (loadPackStep fs) ([], [])).2 =
          (_iter_pack_paths fs).filterMap
            (fun r => if fs.read r = none
              then some ("WARN: unable to read style pack: " ++ r) else none) := by
        simpa using hfold.2
      rw [hlogs]
      exact List.mem_filterMap.mpr ⟨q, hq, by simp [hread]⟩
  · intro fs h1 hm
    have hfold := loadPack_foldl fs (_iter_pack_paths fs) ([], [])
    have hz : ((_iter_pack_paths fs).foldl (loadPackStep fs) ([], [])).1 = [] := by
      have hx := hfold.1
      simp only [List.nil_append] at hx
      rw [hx, hm]
    simp only [_load_style_sources]
    rw [if_neg h1, if_pos hz]
    cases hr : fs.read _STYLES_PATH with
    | none => simp
    | some legacy =>
      by_cases hl : legacy ≠ []
      · simp [hl]
      · simp only [ne_eq, not_not] at hl
        simp [hl, hz]

/-- A raw record with id and name present. -/
def rawA : RawStyle := ⟨some "a_style", some "A Style", none, "", "", "", "", []⟩

/-- A filesystem with a packs directory holding one readable pack with one
record (a.json) and one unreadable pack (b.json). -/
def fsB : FileSys :=
  ⟨true, ["b.json", "a.json"], fun _ => none,
    fun p => if p = "styles/packs/a.json" then some [rawA]
      else if p = "styles/packs/b.json" then none else some []⟩

/-- Witness for claim C5: on the concrete mixed pack directory the loader
returns exactly the readable pack record and logs a warning for the broken
one. -/
theorem load_sources_pack_skip_spec_witness :
    (_load_style_sources fsB _STYLES_PATH).1 = [rawA] ∧
    ("WARN: unable to read style pack: styles/packs/b.json") ∈
      (_load_style_sources fsB _STYLES_PATH).2 := by
  have h := load_sources_pack_skip_spec.1 fsB (by decide)
    ⟨"styles/packs/a.json", by decide, [rawA], by decide, by decide⟩
  refine ⟨?_, h.2 "styles/packs/b.json" (by decide) (by decide)⟩
  rw [h.1]
  decide
